import Mathlib

/-!
Verification development for the gann_algomojo trading system.

This file gives a shallow embedding, in Lean 4, of the two core components of
the repository and proves the specified properties about them:

* `src/gann_calculator.py` — the Gann Square of 9 price-level calculator
  (class `GannCalculator`), and
* `src/risk_manager.py` — the position/risk state machine (class `RiskManager`).

Embedding conventions:

* Python floats (prices, money amounts, risk fractions) are embedded as exact
  rationals (`ℚ`).  Python ints are `ℤ` (quantities) or `ℕ` (counters, counts).
* Python `round(x, 2)` is embedded as exact round-half-even to two decimals
  (`round2`), `int(x)` as truncation toward zero (`intTrunc`), and
  `math.floor(math.sqrt(x))` as an exact integer square root of the floor
  (`floorSqrt`).  These are the exact-arithmetic idealisations of the float
  operations.
* Fallible code paths are embedded in `Option`: a Python function that can
  raise (e.g. the unguarded division in `can_place_trade`) returns `none`
  exactly on the raising inputs, and `GannCalculator.calculate`'s empty-dict
  "no result" return is `none`.
* `datetime` timestamp fields (`entry_time`, `last_update`, `exit_time`) are
  not modelled: no claim depends on them and they carry no algorithmic
  content.
* Python dicts keyed by position id are embedded as association lists in
  insertion order (`lookupPos`/`setPos`/`erasePos`); a real dict always has
  pairwise-distinct keys, which appears below as `Nodup` hypotheses on the
  key list where a statement depends on it.
* The reason strings produced by `can_place_trade` embed runtime values via
  `str.format`; they are abstracted to the closed enumeration `Reason`, one
  constructor per `return` site.  Fixed literal strings (the exit-condition
  reasons) are kept as strings.
-/

namespace GannAlgomojo

/-! ## Numeric helpers -/

/-- Floor of a rational, computed as a floored integer division of the
numerator by the (positive) denominator.  Kernel-computable version of
`Int.floor` on `ℚ`. -/
def qfloor (q : ℚ) : ℤ := Int.fdiv q.num q.den

/-- Round-half-even of a rational to the nearest integer: the exact-arithmetic
idealisation of Python's banker's rounding of a float. -/
def roundHalfEven (q : ℚ) : ℤ :=
  let f := qfloor q
  if q - f < 1/2 then f
  else if (1:ℚ)/2 < q - f then f + 1
  else if f % 2 = 0 then f else f + 1

/-- Python `round(x, 2)`: round to two decimal places. -/
def round2 (q : ℚ) : ℚ := (roundHalfEven (q * 100) : ℚ) / 100

/-- Python `int(x)`: truncation toward zero. -/
def intTrunc (q : ℚ) : ℤ := if q < 0 then -qfloor (-q) else qfloor q

/-- Largest `k ≤ fuel` with `k * k ≤ n` (structurally recursive integer square
root used by `floorSqrt`). -/
def floorSqrtGo (n : ℕ) : ℕ → ℕ
  | 0 => 0
  | k+1 => if (k+1)*(k+1) ≤ n then k+1 else floorSqrtGo n k

/-- Python `math.floor(math.sqrt(q))` for `q ≥ 0`: the integer part of the
square root, computed exactly (for a nonnegative rational,
`⌊√q⌋ = ⌊√⌊q⌋⌋`). -/
def floorSqrt (q : ℚ) : ℕ := floorSqrtGo (Int.toNat (qfloor q)) (Int.toNat (qfloor q))

/-! ## Gann Square of 9 calculator (`GannCalculator`) -/

/-- Constructor parameters of `GannCalculator` (`params` dict).  The target
count `3` is a literal argument of `calculate` in the source, not a
parameter. -/
structure GannParams where
  increments : List ℚ
  numValues : ℕ
  bufferPercentage : ℚ
  includeLower : Bool

/-- The eight axis angles `['0°', '45°', ..., '315°']`, in degrees. -/
def angles : List ℕ := [0, 45, 90, 135, 180, 225, 270, 315]

/-- `is_cardinal`: the angle is a multiple of 90 degrees. -/
def isCardinal (a : ℕ) : Bool := a % 90 = 0

/-- The ring list generated for one axis by `_gann_square_of_9`: the
values below the central value (when `include_lower`, in the order the
`insert(0, ...)` loop produces them), then the central value, then
`num_values` rings above it.  `base` is `floor(sqrt(price))`. -/
def axisRings (p : GannParams) (base : ℚ) (a : ℕ) (inc : ℚ) : List ℚ :=
  let baseMult : ℚ := if isCardinal a then 1 else 9/8
  let lowerCount := p.numValues / 2
  let lower : List ℚ :=
    if p.includeLower then
      (List.range lowerCount).filterMap (fun i =>
        let val := base - ((i:ℚ) + 1) * inc * baseMult
        if 0 < val then some (round2 (val * val)) else none)
    else []
  let upper : List ℚ :=
    (List.range p.numValues).map (fun i =>
      let val := base + ((i:ℚ) + 1) * inc * baseMult
      round2 (val * val))
  lower ++ round2 (base * base) :: upper

/-- `_gann_square_of_9`: the mapping angle → ring list.  `zip` truncates to
the shorter of the two lists, exactly as Python's `zip(angles, increments)`
does. -/
def gannSquareOf9 (p : GannParams) (price : ℚ) : List (ℕ × List ℚ) :=
  let base : ℚ := (floorSqrt price : ℚ)
  (angles.zip p.increments).map (fun ai => (ai.1, axisRings p base ai.1 ai.2))

/-- Lookup of an angle key in the generated mapping (Python dict access). -/
def lookupAngle (a : ℕ) : List (ℕ × List ℚ) → Option (List ℚ)
  | [] => none
  | (b, vs) :: rest => if b = a then some vs else lookupAngle a rest

/-- One step of the scan in `_find_buy_sell_levels`: update the running
closest-above / closest-below candidates with the next ring value `v`. -/
def fbsStep (price : ℚ) (acc : Option (ℕ × ℚ) × Option (ℕ × ℚ)) (v : ℚ) :
    Option (ℕ × ℚ) × Option (ℕ × ℚ) :=
  let above :=
    match acc.1 with
    | none => if price < v then some ((0:ℕ), v) else none
    | some ca => if price < v ∧ v < ca.2 then some ((0:ℕ), v) else some ca
  let below :=
    match acc.2 with
    | none => if v < price then some ((0:ℕ), v) else none
    | some cb => if v < price ∧ cb.2 < v then some ((0:ℕ), v) else some cb
  (above, below)

/-- The closest-above component of one `fbsStep`, in isolation. -/
def fbsAbove (price : ℚ) (acc : Option (ℕ × ℚ)) (v : ℚ) : Option (ℕ × ℚ) :=
  match acc with
  | none => if price < v then some ((0:ℕ), v) else none
  | some ca => if price < v ∧ v < ca.2 then some ((0:ℕ), v) else some ca

/-- The closest-below component of one `fbsStep`, in isolation. -/
def fbsBelow (price : ℚ) (acc : Option (ℕ × ℚ)) (v : ℚ) : Option (ℕ × ℚ) :=
  match acc with
  | none => if v < price then some ((0:ℕ), v) else none
  | some cb => if v < price ∧ cb.2 < v then some ((0:ℕ), v) else some cb

/-- `_find_buy_sell_levels`: nearest ring above and nearest ring below the
price, both taken from the 0-degree axis only. -/
def findBuySellLevels (price : ℚ) (gv : List (ℕ × List ℚ)) :
    Option (ℕ × ℚ) × Option (ℕ × ℚ) :=
  match lookupAngle 0 gv with
  | none => (none, none)
  | some vs => vs.foldl (fbsStep price) (none, none)

/-- Buy-target loop of `_get_unique_targets_from_angles`: for each angle in
order, the smallest ring value above `entryValue` not already used; `none`
models the `KeyError` raised when an angle is missing from the mapping. -/
def collectBuyTargets (gv : List (ℕ × List ℚ)) (entryValue : ℚ) :
    List ℕ → List ℚ → Option (List (ℕ × ℚ))
  | [], _ => some []
  | a :: rest, used =>
    match lookupAngle a gv with
    | none => none
    | some vs =>
      let valuesAbove := vs.filter (fun v => entryValue < v ∧ v ∉ used)
      match valuesAbove.min? with
      | none => collectBuyTargets gv entryValue rest used
      | some m => (collectBuyTargets gv entryValue rest (m :: used)).map (fun ts => (a, m) :: ts)

/-- Sell-target loop of `_get_unique_targets_from_angles`: for each angle in
order, the largest ring value below `sellBelowValue` not already used. -/
def collectSellTargets (gv : List (ℕ × List ℚ)) (sellBelowValue : ℚ) :
    List ℕ → List ℚ → Option (List (ℕ × ℚ))
  | [], _ => some []
  | a :: rest, used =>
    match lookupAngle a gv with
    | none => none
    | some vs =>
      let valuesBelow := vs.filter (fun v => v < sellBelowValue ∧ v ∉ used)
      match valuesBelow.max? with
      | none => collectSellTargets gv sellBelowValue rest used
      | some m => (collectSellTargets gv sellBelowValue rest (m :: used)).map (fun ts => (a, m) :: ts)

/-- Sort key used for buy targets: ascending by price. -/
def priceLe (a b : ℕ × ℚ) : Prop := a.2 ≤ b.2

/-- Sort key used for sell targets: descending by price. -/
def priceGe (a b : ℕ × ℚ) : Prop := b.2 ≤ a.2

instance : DecidableRel priceLe := fun a b => inferInstanceAs (Decidable (a.2 ≤ b.2))

instance : DecidableRel priceGe := fun a b => inferInstanceAs (Decidable (b.2 ≤ a.2))

instance : IsTotal (ℕ × ℚ) priceLe := ⟨fun a b => le_total a.2 b.2⟩

instance : IsTrans (ℕ × ℚ) priceLe := ⟨fun _ _ _ h1 h2 => le_trans h1 h2⟩

instance : IsTotal (ℕ × ℚ) priceGe := ⟨fun a b => le_total b.2 a.2⟩

instance : IsTrans (ℕ × ℚ) priceGe := ⟨fun _ _ _ h1 h2 => le_trans h2 h1⟩

/-- Python `sorted(l, key=lambda x: x[1])` (stable ascending sort by price). -/
def sortByPriceAsc (l : List (ℕ × ℚ)) : List (ℕ × ℚ) := List.insertionSort priceLe l

/-- Python `sorted(l, key=lambda x: x[1], reverse=True)` (stable descending
sort by price). -/
def sortByPriceDesc (l : List (ℕ × ℚ)) : List (ℕ × ℚ) := List.insertionSort priceGe l

/-- `_get_unique_targets_from_angles`: buy targets above the entry value,
sell targets seeded with the re-derived central value and collected below the
sell level, both de-duplicated by exact value, sorted, and truncated to
`numLevels`. -/
def getUniqueTargetsFromAngles (entryValue : ℚ) (gv : List (ℕ × List ℚ)) (numLevels : ℕ)
    (currentPrice : ℚ) (sellBelowValue : Option ℚ) :
    Option (List (ℕ × ℚ) × List (ℕ × ℚ)) :=
  match collectBuyTargets gv entryValue angles [] with
  | none => none
  | some buyRaw =>
    let sellRawOpt : Option (List (ℕ × ℚ)) :=
      match sellBelowValue with
      | none => some []
      | some sbv =>
        let centralValue : ℚ := ((floorSqrt currentPrice) ^ 2 : ℕ)
        if centralValue < sbv then
          (collectSellTargets gv sbv angles [centralValue]).map
            (fun ts => ((0:ℕ), centralValue) :: ts)
        else collectSellTargets gv sbv angles []
    match sellRawOpt with
    | none => none
    | some sellRaw =>
      some ((sortByPriceAsc buyRaw).take numLevels, (sortByPriceDesc sellRaw).take numLevels)

/-- `_calculate_stoploss`: buffer the straddle levels multiplicatively
(`(long_stoploss, short_stoploss)`). -/
def calculateStoploss (buyAbove sellBelow : ℕ × ℚ) (bufferPercentage : ℚ) : ℚ × ℚ :=
  (round2 (sellBelow.2 * (1 - bufferPercentage)), round2 (buyAbove.2 * (1 + bufferPercentage)))

/-- The result dict of `GannCalculator.calculate` (the non-empty case). -/
structure GannResult where
  inputPrice : ℚ
  buyAbove : ℚ
  sellBelow : ℚ
  buyTargets : List (ℕ × ℚ)
  sellTargets : List (ℕ × ℚ)
  stoplossLong : ℚ
  stoplossShort : ℚ
deriving DecidableEq

/-- `GannCalculator.calculate`: `none` is the empty-dict "no result" signal
(non-positive price, a missing straddle side, or an exception caught by the
surrounding `try`). -/
def calculate (p : GannParams) (price : ℚ) : Option GannResult :=
  if price ≤ 0 then none
  else
    let gv := gannSquareOf9 p price
    match findBuySellLevels price gv with
    | (some buyLevel, some sellLevel) =>
      match getUniqueTargetsFromAngles buyLevel.2 gv 3 price (some sellLevel.2) with
      | none => none
      | some (buyTargets, sellTargets) =>
        let sl := calculateStoploss buyLevel sellLevel p.bufferPercentage
        some { inputPrice := price, buyAbove := buyLevel.2, sellBelow := sellLevel.2,
               buyTargets := buyTargets, sellTargets := sellTargets,
               stoplossLong := sl.1, stoplossShort := sl.2 }
    | (_, _) => none

/-- The 0-degree ring list generated for a price (empty when the angle is
absent from the mapping). -/
def axis0Rings (p : GannParams) (price : ℚ) : List ℚ :=
  (lookupAngle 0 (gannSquareOf9 p price)).getD []

/-! ## Risk manager (`RiskManager`) -/

/-- A tracked position (the dict built by `register_position`; exit fields
are `None` until `close_position` fills them). -/
structure Position where
  orderId : String
  symbol : String
  action : String
  quantity : ℤ
  entryPrice : ℚ
  stopLoss : ℚ
  targetPrice : Option ℚ
  currentPrice : ℚ
  riskAmount : ℚ
  riskReward : Option ℚ
  unrealizedPnl : ℚ
  status : String
  exitPrice : Option ℚ
  realizedPnl : Option ℚ
  exitReason : Option String
deriving DecidableEq

/-- The full state of a `RiskManager` instance: the six configuration
parameters fixed by `__init__`, the active-position map (as an association
list in insertion order), and the running counters. -/
structure RiskManager where
  maxRiskPerTrade : ℚ
  maxPositions : ℕ
  maxRiskPerSymbol : ℚ
  maxDailyLoss : ℚ
  maxDrawdown : ℚ
  minRiskReward : ℚ
  activePositions : List (String × Position)
  dailyPnl : ℚ
  peakBalance : ℚ
  currentBalance : ℚ
  totalTrades : ℕ
  winningTrades : ℕ
  losingTrades : ℕ
  totalProfit : ℚ
  totalLoss : ℚ
deriving DecidableEq

/-- A freshly constructed `RiskManager` (all counters zero, no positions). -/
def freshRM (maxRiskPerTrade : ℚ) (maxPositions : ℕ)
    (maxRiskPerSymbol maxDailyLoss maxDrawdown minRiskReward : ℚ) : RiskManager :=
  { maxRiskPerTrade := maxRiskPerTrade, maxPositions := maxPositions,
    maxRiskPerSymbol := maxRiskPerSymbol, maxDailyLoss := maxDailyLoss,
    maxDrawdown := maxDrawdown, minRiskReward := minRiskReward,
    activePositions := [], dailyPnl := 0, peakBalance := 0, currentBalance := 0,
    totalTrades := 0, winningTrades := 0, losingTrades := 0,
    totalProfit := 0, totalLoss := 0 }

/-- Dict lookup `d[k]` / `k in d` on the position map. -/
def lookupPos (k : String) : List (String × Position) → Option Position
  | [] => none
  | (k2, p) :: rest => if k2 = k then some p else lookupPos k rest

/-- Dict assignment `d[k] = p`: replace the entry in place if the key exists,
else append. -/
def setPos (k : String) (p : Position) : List (String × Position) → List (String × Position)
  | [] => [(k, p)]
  | (k2, q) :: rest => if k2 = k then (k, p) :: rest else (k2, q) :: setPos k p rest

/-- Dict deletion `del d[k]` (removes the first — in a dict, only —
occurrence of the key). -/
def erasePos (k : String) : List (String × Position) → List (String × Position)
  | [] => []
  | (k2, q) :: rest => if k2 = k then rest else (k2, q) :: erasePos k rest

/-- The key list of the position map. -/
def keys (l : List (String × Position)) : List String := l.map Prod.fst

/-- The balance/peak update performed by `calculate_position_size` (and,
identically, by `update_account_metrics`). -/
def updateBalances (rm : RiskManager) (accountBalance : ℚ) : RiskManager :=
  { rm with
    currentBalance := accountBalance,
    peakBalance := if rm.peakBalance < accountBalance then accountBalance
      else rm.peakBalance }

/-- `risk_per_share` of `calculate_position_size` (and `risk_per_unit` of
`_calculate_trade_risk`): the directional per-unit risk. -/
def riskPerShare (entryPrice stopLoss : ℚ) : ℚ :=
  if stopLoss < entryPrice then entryPrice - stopLoss else stopLoss - entryPrice

/-- `_calculate_trade_risk`: per-unit risk times quantity. -/
def calculateTradeRisk (entryPrice stopLoss : ℚ) (quantity : ℤ) : ℚ :=
  riskPerShare entryPrice stopLoss * quantity

/-- `calculate_position_size`.  Returns the quantity together with the
updated manager state; note that the invalid-price early return happens
before the balance update in the source. -/
def calculatePositionSize (rm : RiskManager) (accountBalance entryPrice stopLoss : ℚ) :
    ℤ × RiskManager :=
  if entryPrice ≤ 0 ∨ stopLoss ≤ 0 then (0, rm)
  else if riskPerShare entryPrice stopLoss ≤ 0 then (0, updateBalances rm accountBalance)
  else
    (intTrunc (accountBalance * rm.maxRiskPerTrade / riskPerShare entryPrice stopLoss),
      updateBalances rm accountBalance)

/-- The reason component of `can_place_trade`'s result, one constructor per
`return` site (the source interpolates runtime values into these strings). -/
inductive Reason where
  | maxPositionsReached
  | invalidQuantity
  | invalidPriceLevels
  | invalidPotentialLoss
  | riskRewardTooLow
  | maxRiskPerSymbolExceeded
  | dailyLossLimitExceeded
  | maxDrawdownExceeded
  | tradeValidated
deriving DecidableEq

/-- The open positions on `symbol`
(`[p for p in active_positions.values() if p.get('symbol') == symbol]`). -/
def symbolPositions (rm : RiskManager) (symbol : String) : List Position :=
  (rm.activePositions.map Prod.snd).filter (fun p => p.symbol = symbol)

/-- `sum(p.get('risk_amount', 0) for p in symbol_positions)`. -/
def symbolRisk (rm : RiskManager) (symbol : String) : ℚ :=
  ((symbolPositions rm symbol).map Position.riskAmount).sum

/-- Checks 6 and 7 of `can_place_trade` (daily loss limit, drawdown). -/
def canPlaceTradeTail (rm : RiskManager) : Option (Bool × Reason) :=
  if rm.dailyPnl < -(rm.currentBalance * rm.maxDailyLoss) then
    some (false, .dailyLossLimitExceeded)
  else if 0 < rm.peakBalance ∧
      rm.maxDrawdown < (rm.peakBalance - rm.currentBalance) / rm.peakBalance then
    some (false, .maxDrawdownExceeded)
  else some (true, .tradeValidated)

/-- Check 5 of `can_place_trade` (per-symbol risk), then the tail checks.
The division by `current_balance` is only executed when there is at least one
open position on the symbol; `none` models the `ZeroDivisionError` raised
when that happens with a zero balance. -/
def canPlaceTradeRisk (rm : RiskManager) (symbol : String) (quantity : ℤ)
    (entryPrice stopLoss : ℚ) : Option (Bool × Reason) :=
  match symbolPositions rm symbol with
  | [] => canPlaceTradeTail rm
  | _ :: _ =>
    if rm.currentBalance = 0 then none
    else if rm.maxRiskPerSymbol <
        (symbolRisk rm symbol + calculateTradeRisk entryPrice stopLoss quantity)
          / rm.currentBalance then
      some (false, .maxRiskPerSymbolExceeded)
    else canPlaceTradeTail rm

/-- `can_place_trade`: the admission gate, checks in source order.  `none`
models an uncaught exception (see `canPlaceTradeRisk`). -/
def canPlaceTrade (rm : RiskManager) (symbol action : String) (quantity : ℤ)
    (entryPrice stopLoss : ℚ) (targetPrice : Option ℚ) : Option (Bool × Reason) :=
  if rm.maxPositions ≤ rm.activePositions.length then some (false, .maxPositionsReached)
  else if quantity ≤ 0 then some (false, .invalidQuantity)
  else if entryPrice ≤ 0 ∨ stopLoss ≤ 0 then some (false, .invalidPriceLevels)
  else
    match targetPrice with
    | some tgt =>
      if (if action = "BUY" then entryPrice - stopLoss else stopLoss - entryPrice) ≤ 0 then
        some (false, .invalidPotentialLoss)
      else if (if action = "BUY" then tgt - entryPrice else entryPrice - tgt)
          / (if action = "BUY" then entryPrice - stopLoss else stopLoss - entryPrice)
          < rm.minRiskReward then
        some (false, .riskRewardTooLow)
      else canPlaceTradeRisk rm symbol quantity entryPrice stopLoss
    | none => canPlaceTradeRisk rm symbol quantity entryPrice stopLoss

/-- `register_position`: build the position dict (status `"open"`) and insert
it under `order_id`. -/
def registerPosition (rm : RiskManager) (orderId symbol action : String) (quantity : ℤ)
    (entryPrice stopLoss : ℚ) (targetPrice : Option ℚ) : String × RiskManager :=
  let riskAmount := calculateTradeRisk entryPrice stopLoss quantity
  let riskReward : Option ℚ :=
    match targetPrice with
    | some tgt =>
      if 0 < tgt then
        let potentialProfit := (if action = "BUY" then tgt - entryPrice
                                else entryPrice - tgt) * quantity
        let potentialLoss := (if action = "BUY" then entryPrice - stopLoss
                              else stopLoss - entryPrice) * quantity
        if 0 < potentialLoss then some (potentialProfit / potentialLoss) else none
      else none
    | none => none
  let position : Position :=
    { orderId := orderId, symbol := symbol, action := action, quantity := quantity,
      entryPrice := entryPrice, stopLoss := stopLoss, targetPrice := targetPrice,
      currentPrice := entryPrice, riskAmount := riskAmount, riskReward := riskReward,
      unrealizedPnl := 0, status := "open",
      exitPrice := none, realizedPnl := none, exitReason := none }
  (orderId, { rm with activePositions := setPos orderId position rm.activePositions })

/-- The directional P&L convention shared by `update_position` (against the
current price) and `close_position` (against the exit price): `BUY` positions
gain when the price rises, `SELL` positions when it falls. -/
def directionalPnl (position : Position) (price : ℚ) : ℚ :=
  if position.action = "BUY" then (price - position.entryPrice) * position.quantity
  else (position.entryPrice - price) * position.quantity

/-- `update_position`: refresh the current price and unrealized P&L of a
position; absent id is a no-op returning the empty dict (`none`). -/
def updatePosition (rm : RiskManager) (positionId : String) (currentPrice : ℚ) :
    Option Position × RiskManager :=
  match lookupPos positionId rm.activePositions with
  | none => (none, rm)
  | some position =>
    let upd := { position with
      currentPrice := currentPrice,
      unrealizedPnl := directionalPnl position currentPrice }
    (some upd, { rm with activePositions := setPos positionId upd rm.activePositions })

/-- `close_position`: compute the realised P&L, fold it into the statistics,
remove the position from the active map and return the closed copy; absent id
is a no-op returning the empty dict (`none`). -/
def closePosition (rm : RiskManager) (positionId : String) (exitPrice : ℚ) (reason : String) :
    Option Position × RiskManager :=
  match lookupPos positionId rm.activePositions with
  | none => (none, rm)
  | some position =>
    let realizedPnl := directionalPnl position exitPrice
    let closed := { position with
      status := "closed", exitPrice := some exitPrice,
      realizedPnl := some realizedPnl, exitReason := some reason }
    (some closed,
     { rm with
       totalTrades := rm.totalTrades + 1,
       dailyPnl := rm.dailyPnl + realizedPnl,
       winningTrades := if 0 < realizedPnl then rm.winningTrades + 1 else rm.winningTrades,
       totalProfit := if 0 < realizedPnl then rm.totalProfit + realizedPnl else rm.totalProfit,
       losingTrades := if 0 < realizedPnl then rm.losingTrades else rm.losingTrades + 1,
       totalLoss := if 0 < realizedPnl then rm.totalLoss else rm.totalLoss + |realizedPnl|,
       activePositions := erasePos positionId rm.activePositions })

/-- `check_exit_conditions`: advisory stop-loss / target test.  The argument
is the position dict; `none` stands for an empty/falsy dict.  The source only
reads the dict, so the embedding is a pure function. -/
def checkExitConditions (position : Option Position) (currentPrice : ℚ) : Bool × String :=
  match position with
  | none => (false, "Invalid position")
  | some p =>
    if p.action = "BUY" ∧ currentPrice ≤ p.stopLoss then (true, "Stop loss triggered")
    else if p.action = "SELL" ∧ p.stopLoss ≤ currentPrice then (true, "Stop loss triggered")
    else
      match p.targetPrice with
      | some tgt =>
        if p.action = "BUY" ∧ tgt ≤ currentPrice then (true, "Target price reached")
        else if p.action = "SELL" ∧ currentPrice ≤ tgt then (true, "Target price reached")
        else (false, "No exit condition met")
      | none => (false, "No exit condition met")

/-! ### Call sequences (for the stateful invariants) -/

/-- One externally invokable mutating call on the risk manager. -/
inductive Op where
  | register (orderId symbol action : String) (quantity : ℤ)
      (entryPrice stopLoss : ℚ) (targetPrice : Option ℚ)
  | update (positionId : String) (currentPrice : ℚ)
  | close (positionId : String) (exitPrice : ℚ) (reason : String)

/-- Apply one call to the state (discarding the returned value). -/
def applyOp (rm : RiskManager) : Op → RiskManager
  | .register orderId symbol action quantity entryPrice stopLoss targetPrice =>
    (registerPosition rm orderId symbol action quantity entryPrice stopLoss targetPrice).2
  | .update positionId currentPrice => (updatePosition rm positionId currentPrice).2
  | .close positionId exitPrice reason => (closePosition rm positionId exitPrice reason).2

/-- Run a sequence of calls. -/
def runOps (rm : RiskManager) (ops : List Op) : RiskManager := ops.foldl applyOp rm

/-- The id a call registers, if it is a `register`. -/
def registerId : Op → Option String
  | .register orderId _ _ _ _ _ _ => some orderId
  | _ => none

/-- The ids registered by a call sequence, in order. -/
def registeredIds (ops : List Op) : List String := ops.filterMap registerId

/-- The risk-reward gate (check 4) of `can_place_trade` passes: either no
target price is supplied, or the directional potential loss is positive and
the profit/loss ratio is not below the configured minimum. -/
def riskRewardOk (rm : RiskManager) (action : String) (entryPrice stopLoss : ℚ) :
    Option ℚ → Prop
  | none => True
  | some tgt =>
    0 < (if action = "BUY" then entryPrice - stopLoss else stopLoss - entryPrice)
    ∧ ¬ (if action = "BUY" then tgt - entryPrice else entryPrice - tgt)
        / (if action = "BUY" then entryPrice - stopLoss else stopLoss - entryPrice)
        < rm.minRiskReward

/-! ## Concrete data used by witnesses -/

/-- A small concrete configuration for witness evaluation: unit increments,
two rings per axis, no buffer, no lower rings. -/
def cfgW : GannParams := ⟨[1, 1, 1, 1, 1, 1, 1, 1], 2, 0, false⟩

/-- The concrete result `calculate cfgW 10` evaluates to. -/
def resW : GannResult :=
  { inputPrice := 10, buyAbove := 16, sellBelow := 9,
    buyTargets := [(45, 851/50), (0, 25), (135, 689/25)], sellTargets := [],
    stoplossLong := 9, stoplossShort := 16 }

/-- A configuration with zero increments: every 0-degree ring equals the
central value, so no ring lies strictly above the price `10`. -/
def cfgWZ : GannParams := ⟨[0, 0, 0, 0, 0, 0, 0, 0], 1, 0, false⟩

/-- Like `cfgW` but with the lower rings enabled, so that the sell-target
list is non-empty. -/
def cfgWL : GannParams := ⟨[1, 1, 1, 1, 1, 1, 1, 1], 2, 0, true⟩

/-- The concrete result `calculate cfgWL 10` evaluates to. -/
def resWL : GannResult :=
  { inputPrice := 10, buyAbove := 16, sellBelow := 9,
    buyTargets := [(45, 851/50), (0, 25), (135, 689/25)],
    sellTargets := [(0, 4), (45, 88/25)],
    stoplossLong := 9, stoplossShort := 16 }

/-- A risk manager with the source's default risk parameters and no history. -/
def rmDefault : RiskManager := freshRM (1/100) 5 (1/50) (1/20) (1/10) (3/2)

/-- A concrete Long position used by witnesses: entry 100, stop 95,
target 110. -/
def posWitness : Position :=
  { orderId := "W", symbol := "X", action := "BUY", quantity := 1,
    entryPrice := 100, stopLoss := 95, targetPrice := some 110, currentPrice := 100,
    riskAmount := 5, riskReward := some 2, unrealizedPnl := 0, status := "open",
    exitPrice := none, realizedPnl := none, exitReason := none }

/-- The call sequence of the close scenario: register Long "A" then close it
at 1050. -/
def opsW : List Op :=
  [Op.register "A" "NIFTY" "BUY" 200 1000 950 none, Op.close "A" 1050 "Target"]

/-- The position dict `register_position` builds for the close scenario:
Long "A", quantity 200, entry 1000, stop 950, no target. -/
def posA : Position :=
  { orderId := "A", symbol := "NIFTY", action := "BUY", quantity := 200,
    entryPrice := 1000, stopLoss := 950, targetPrice := none, currentPrice := 1000,
    riskAmount := 10000, riskReward := none, unrealizedPnl := 0, status := "open",
    exitPrice := none, realizedPnl := none, exitReason := none }

/-! ## Basic numeric lemmas -/

theorem qfloor_eq_floor (q : ℚ) : qfloor q = ⌊q⌋ := by
  rw [Rat.floor_def]
  exact Int.fdiv_eq_ediv q.num (Int.natCast_nonneg q.den)

/-! ## Lemmas about the straddle scan -/

theorem fbsStep_eq (price : ℚ) (acc : Option (ℕ × ℚ) × Option (ℕ × ℚ)) (v : ℚ) :
    fbsStep price acc v = (fbsAbove price acc.1 v, fbsBelow price acc.2 v) := rfl

theorem foldl_fbsStep_fst (price : ℚ) :
    ∀ (vs : List ℚ) (acc : Option (ℕ × ℚ) × Option (ℕ × ℚ)),
      (vs.foldl (fbsStep price) acc).1 = vs.foldl (fbsAbove price) acc.1
  | [], _ => rfl
  | v :: vs, acc => foldl_fbsStep_fst price vs (fbsStep price acc v)

theorem foldl_fbsStep_snd (price : ℚ) :
    ∀ (vs : List ℚ) (acc : Option (ℕ × ℚ) × Option (ℕ × ℚ)),
      (vs.foldl (fbsStep price) acc).2 = vs.foldl (fbsBelow price) acc.2
  | [], _ => rfl
  | v :: vs, acc => foldl_fbsStep_snd price vs (fbsStep price acc v)

theorem fbsAbove_none_eq (price v : ℚ) :
    fbsAbove price none v = if price < v then some ((0:ℕ), v) else none := rfl

theorem fbsAbove_some_eq (price v : ℚ) (ca : ℕ × ℚ) :
    fbsAbove price (some ca) v
      = if price < v ∧ v < ca.2 then some ((0:ℕ), v) else some ca := rfl

theorem fbsBelow_none_eq (price v : ℚ) :
    fbsBelow price none v = if v < price then some ((0:ℕ), v) else none := rfl

theorem fbsBelow_some_eq (price v : ℚ) (cb : ℕ × ℚ) :
    fbsBelow price (some cb) v
      = if v < price ∧ cb.2 < v then some ((0:ℕ), v) else some cb := rfl

theorem fbsAbove_fold_gt (price : ℚ) :
    ∀ (vs : List ℚ) (acc : Option (ℕ × ℚ)),
      (∀ y, acc = some y → price < y.2) →
      ∀ y, vs.foldl (fbsAbove price) acc = some y → price < y.2 := by
  intro vs
  induction vs with
  | nil => exact fun acc h y hy => h y hy
  | cons v vs ih =>
    intro acc h y hy
    refine ih _ ?_ y hy
    intro z hz
    cases acc with
    | none =>
      rw [fbsAbove_none_eq] at hz
      split at hz
      · cases hz; assumption
      · cases hz
    | some ca =>
      rw [fbsAbove_some_eq] at hz
      split at hz
      next hlt => cases hz; exact hlt.1
      next => cases hz; exact h _ rfl

theorem fbsBelow_fold_lt (price : ℚ) :
    ∀ (vs : List ℚ) (acc : Option (ℕ × ℚ)),
      (∀ y, acc = some y → y.2 < price) →
      ∀ y, vs.foldl (fbsBelow price) acc = some y → y.2 < price := by
  intro vs
  induction vs with
  | nil => exact fun acc h y hy => h y hy
  | cons v vs ih =>
    intro acc h y hy
    refine ih _ ?_ y hy
    intro z hz
    cases acc with
    | none =>
      rw [fbsBelow_none_eq] at hz
      split at hz
      · cases hz; assumption
      · cases hz
    | some cb =>
      rw [fbsBelow_some_eq] at hz
      split at hz
      next hlt => cases hz; exact hlt.1
      next => cases hz; exact h _ rfl

theorem fbsAbove_fold_none (price : ℚ) :
    ∀ (vs : List ℚ), (∀ v ∈ vs, ¬ price < v) →
      vs.foldl (fbsAbove price) none = none := by
  intro vs
  induction vs with
  | nil => exact fun _ => rfl
  | cons v vs ih =>
    intro h
    have hv : fbsAbove price none v = none := by
      rw [fbsAbove_none_eq, if_neg (h v (List.mem_cons_self v vs))]
    rw [List.foldl_cons, hv]
    exact ih fun w hw => h w (List.mem_cons_of_mem v hw)

theorem fbsBelow_fold_none (price : ℚ) :
    ∀ (vs : List ℚ), (∀ v ∈ vs, ¬ v < price) →
      vs.foldl (fbsBelow price) none = none := by
  intro vs
  induction vs with
  | nil => exact fun _ => rfl
  | cons v vs ih =>
    intro h
    have hv : fbsBelow price none v = none := by
      rw [fbsBelow_none_eq, if_neg (h v (List.mem_cons_self v vs))]
    rw [List.foldl_cons, hv]
    exact ih fun w hw => h w (List.mem_cons_of_mem v hw)

theorem findBuySellLevels_gt (price : ℚ) (gv : List (ℕ × List ℚ)) :
    ∀ y, (findBuySellLevels price gv).1 = some y → price < y.2 := by
  unfold findBuySellLevels
  cases lookupAngle 0 gv with
  | none => simp
  | some vs =>
    simp only
    rw [foldl_fbsStep_fst]
    exact fbsAbove_fold_gt price vs none (by simp)

theorem findBuySellLevels_lt (price : ℚ) (gv : List (ℕ × List ℚ)) :
    ∀ y, (findBuySellLevels price gv).2 = some y → y.2 < price := by
  unfold findBuySellLevels
  cases lookupAngle 0 gv with
  | none => simp
  | some vs =>
    simp only
    rw [foldl_fbsStep_snd]
    exact fbsBelow_fold_lt price vs none (by simp)

theorem findBuySellLevels_none_above (price : ℚ) (gv : List (ℕ × List ℚ))
    (h : ∀ v ∈ (lookupAngle 0 gv).getD [], ¬ price < v) :
    (findBuySellLevels price gv).1 = none := by
  unfold findBuySellLevels
  cases hl : lookupAngle 0 gv with
  | none => rfl
  | some vs =>
    simp only
    rw [foldl_fbsStep_fst]
    exact fbsAbove_fold_none price vs (by rw [hl] at h; exact h)

theorem findBuySellLevels_none_below (price : ℚ) (gv : List (ℕ × List ℚ))
    (h : ∀ v ∈ (lookupAngle 0 gv).getD [], ¬ v < price) :
    (findBuySellLevels price gv).2 = none := by
  unfold findBuySellLevels
  cases hl : lookupAngle 0 gv with
  | none => rfl
  | some vs =>
    simp only
    rw [foldl_fbsStep_snd]
    exact fbsBelow_fold_none price vs (by rw [hl] at h; exact h)

/-- C1: for every price `p > 0` and configuration for which `calculate p`
returns a non-empty result, the result satisfies
`sellBelow < p < buyAbove` (both levels taken from the 0-degree axis); and
whenever the 0-degree axis has no ring strictly above `p`, or none strictly
below `p`, `calculate` returns the empty "no result" signal (`none`) rather
than a partial level set. -/
theorem calculate_straddle (p : GannParams) (price : ℚ) :
    (∀ r, calculate p price = some r → r.sellBelow < price ∧ price < r.buyAbove)
    ∧ ((∀ v ∈ axis0Rings p price, ¬ price < v) ∨ (∀ v ∈ axis0Rings p price, ¬ v < price) →
      calculate p price = none) := by
  constructor
  · intro r hr
    unfold calculate at hr
    split at hr
    · exact absurd hr (by simp)
    · simp only at hr
      rcases hfb : findBuySellLevels price (gannSquareOf9 p price) with ⟨ba, sb⟩
      rw [hfb] at hr
      cases ba with
      | none => exact absurd hr (by simp)
      | some bl =>
        cases sb with
        | none => exact absurd hr (by simp)
        | some sl =>
          simp only at hr
          rcases htg : getUniqueTargetsFromAngles bl.2 (gannSquareOf9 p price) 3 price
              (some sl.2) with _ | ⟨bt, st⟩
          · rw [htg] at hr; exact absurd hr (by simp)
          · rw [htg] at hr
            simp only at hr
            cases hr
            constructor
            · exact findBuySellLevels_lt price (gannSquareOf9 p price) sl
                (by rw [hfb])
            · exact findBuySellLevels_gt price (gannSquareOf9 p price) bl
                (by rw [hfb])
  · intro h
    unfold calculate
    split
    · rfl
    · simp only
      rcases hfb : findBuySellLevels price (gannSquareOf9 p price) with ⟨ba, sb⟩
      cases h with
      | inl h =>
        have hba : ba = none := by
          have h2 := findBuySellLevels_none_above price (gannSquareOf9 p price) h
          rw [hfb] at h2; exact h2
        subst hba
        cases sb <;> rfl
      | inr h =>
        have hsb : sb = none := by
          have h2 := findBuySellLevels_none_below price (gannSquareOf9 p price) h
          rw [hfb] at h2; exact h2
        subst hsb
        cases ba <;> rfl

unseal Rat.mul Rat.add Rat.sub Rat.inv in
theorem calculate_straddle_witness :
    calculate cfgW 10 = some resW
    ∧ (resW.sellBelow < 10 ∧ 10 < resW.buyAbove)
    ∧ (∀ v ∈ axis0Rings cfgWZ 10, ¬ (10:ℚ) < v)
    ∧ calculate cfgWZ 10 = none := by
  refine ⟨by decide, ?_, by decide, ?_⟩
  · exact (calculate_straddle cfgW 10).1 resW (by decide)
  · exact (calculate_straddle cfgWZ 10).2 (Or.inl (by decide))


/-! ## C6: position sizing -/

unseal Rat.mul Rat.add Rat.sub Rat.inv in
/-- C6 counterexample: the claim says the quantity is the floor of
`accountBalance * maxRiskPerTrade / |entryPrice - stopLoss|` for every
`accountBalance`, but the source applies Python `int()` (truncation toward
zero): at `accountBalance = -1000000`, entry `1000`, stop `997` the code
returns `-3333` while the floor is `-3334`. -/
theorem calculatePositionSize_floor_cx :
    (calculatePositionSize rmDefault (-1000000) 1000 997).1 = -3333
    ∧ qfloor ((-1000000 : ℚ) * (1/100) / |(1000 : ℚ) - 997|) = -3334
    ∧ ((-3333 : ℤ) ≠ -3334) :=
  ⟨by decide, by decide, by decide⟩

theorem riskPerShare_eq_abs (entryPrice stopLoss : ℚ) :
    riskPerShare entryPrice stopLoss = |entryPrice - stopLoss| := by
  unfold riskPerShare
  split
  · rw [abs_of_pos]; linarith
  · rw [abs_of_nonpos (by linarith)]; ring

/-- C6 (amended): `calculate_position_size` returns 0 when
`entryPrice ≤ 0` or `stopLoss ≤ 0`, returns 0 when `|entryPrice - stopLoss|`
is zero, and otherwise returns the truncation toward zero (Python `int`) of
`accountBalance * maxRiskPerTrade / |entryPrice - stopLoss|` — which equals
the floor whenever the quotient is nonnegative, in particular for every
nonnegative `accountBalance`. -/
theorem calculatePositionSize_spec (rm : RiskManager)
    (accountBalance entryPrice stopLoss : ℚ) :
    ((entryPrice ≤ 0 ∨ stopLoss ≤ 0) →
      (calculatePositionSize rm accountBalance entryPrice stopLoss).1 = 0)
    ∧ (|entryPrice - stopLoss| = 0 →
      (calculatePositionSize rm accountBalance entryPrice stopLoss).1 = 0)
    ∧ (0 < entryPrice → 0 < stopLoss → |entryPrice - stopLoss| ≠ 0 →
      (calculatePositionSize rm accountBalance entryPrice stopLoss).1
        = intTrunc (accountBalance * rm.maxRiskPerTrade / |entryPrice - stopLoss|)) := by
  refine ⟨?_, ?_, ?_⟩
  · intro h
    unfold calculatePositionSize
    rw [if_pos h]
  · intro h
    unfold calculatePositionSize
    split
    · rfl
    · rw [if_pos (by rw [riskPerShare_eq_abs, h])]
  · intro he hs hne
    unfold calculatePositionSize
    rw [if_neg (by push_neg; exact ⟨he, hs⟩), riskPerShare_eq_abs,
      if_neg (fun hle => hne (le_antisymm hle (abs_nonneg _)))]

unseal Rat.mul Rat.add Rat.sub Rat.inv in
/-- C6 witness: the admission-scenario numbers — balance `1000000`,
`maxRiskPerTrade = 1/100`, entry `1000`, stop `950` — give quantity `200`. -/
theorem calculatePositionSize_spec_witness :
    (calculatePositionSize rmDefault 1000000 1000 950).1
      = intTrunc ((1000000 : ℚ) * rmDefault.maxRiskPerTrade / |(1000 : ℚ) - 950|)
    ∧ intTrunc ((1000000 : ℚ) * rmDefault.maxRiskPerTrade / |(1000 : ℚ) - 950|) = 200 :=
  ⟨(calculatePositionSize_spec rmDefault 1000000 1000 950).2.2 (by decide) (by decide)
      (by decide),
    by decide⟩

/-! ## C10: side effects of position sizing -/

unseal Rat.mul Rat.add Rat.sub Rat.inv in
/-- C10 counterexample: the claim says the balance update happens on every
call including the failure cases, but the invalid-price early return
(`entry_price <= 0 or stop_loss <= 0`) happens before the update: starting
from `currentBalance = 5`, calling with balance `100` and entry `0` returns
`0` and leaves `currentBalance = 5`. -/
theorem calculatePositionSize_frame_cx :
    (calculatePositionSize { rmDefault with currentBalance := 5 } 100 0 10).1 = 0
    ∧ (calculatePositionSize { rmDefault with currentBalance := 5 } 100 0 10).2.currentBalance
      = 5
    ∧ ((5 : ℚ) ≠ 100) :=
  ⟨by decide, by decide, by decide⟩

/-- C10 (amended): on every call with `entryPrice > 0` and `stopLoss > 0`
(including the zero-risk-per-unit failure case that returns 0),
`calculate_position_size` sets `currentBalance` to the argument balance and
raises `peakBalance` to it exactly when it exceeds the old peak
(`updateBalances`), changing no other field; on the invalid-price early
return the whole state is unchanged. -/
theorem calculatePositionSize_frame (rm : RiskManager)
    (accountBalance entryPrice stopLoss : ℚ) :
    ((0 < entryPrice ∧ 0 < stopLoss) →
      (calculatePositionSize rm accountBalance entryPrice stopLoss).2
        = updateBalances rm accountBalance)
    ∧ ((entryPrice ≤ 0 ∨ stopLoss ≤ 0) →
      (calculatePositionSize rm accountBalance entryPrice stopLoss).2 = rm) := by
  constructor
  · intro h
    unfold calculatePositionSize
    rw [if_neg (by push_neg; exact h)]
    split <;> rfl
  · intro h
    unfold calculatePositionSize
    rw [if_pos h]

unseal Rat.mul Rat.add Rat.sub Rat.inv in
/-- C10 witness: with positive prices the balance fields are updated even
when the returned quantity is 0 (entry = stop), and with a non-positive entry
the state is untouched. -/
theorem calculatePositionSize_frame_witness :
    (calculatePositionSize { rmDefault with currentBalance := 5 } 100 10 10).2
      = updateBalances { rmDefault with currentBalance := 5 } 100
    ∧ (calculatePositionSize { rmDefault with currentBalance := 5 } 100 10 10).1 = 0
    ∧ (calculatePositionSize { rmDefault with currentBalance := 5 } 100 0 10).2
      = { rmDefault with currentBalance := 5 } :=
  ⟨(calculatePositionSize_frame { rmDefault with currentBalance := 5 } 100 10 10).1
      (by decide),
    by decide,
    (calculatePositionSize_frame { rmDefault with currentBalance := 5 } 100 0 10).2
      (by decide)⟩

/-! ## C5: totality of the admission gate -/

unseal Rat.mul Rat.add Rat.sub Rat.inv in
/-- C5 counterexample: with `currentBalance = 0` and an open position on the
queried symbol, `can_place_trade` reaches the unguarded division by
`current_balance` and raises `ZeroDivisionError` (modelled as `none`), so the
error branch is reachable and the claim that the function never raises is
false. -/
theorem canPlaceTrade_raises_cx :
    canPlaceTrade ((registerPosition rmDefault "P1" "X" "BUY" 1 10 9 none).2)
        "X" "BUY" 1 10 9 none = none
    ∧ ((registerPosition rmDefault "P1" "X" "BUY" 1 10 9 none).2).currentBalance = 0
    ∧ symbolPositions ((registerPosition rmDefault "P1" "X" "BUY" 1 10 9 none).2) "X" ≠ [] :=
  ⟨by decide, by decide, by decide⟩

theorem canPlaceTradeTail_isSome (rm : RiskManager) : (canPlaceTradeTail rm).isSome := by
  unfold canPlaceTradeTail
  repeat' split
  all_goals rfl

theorem canPlaceTradeRisk_isSome (rm : RiskManager) (symbol : String) (quantity : ℤ)
    (entryPrice stopLoss : ℚ) (h : rm.currentBalance ≠ 0) :
    (canPlaceTradeRisk rm symbol quantity entryPrice stopLoss).isSome := by
  unfold canPlaceTradeRisk
  split
  · exact canPlaceTradeTail_isSome rm
  · split
    · exact absurd (by assumption) h
    · split
      · rfl
      · exact canPlaceTradeTail_isSome rm

/-- C5 (amended): for every state with `currentBalance ≠ 0`,
`can_place_trade` returns a (boolean, reason) pair and never raises: every
other division in the function is guarded.  (The counterexample shows the
zero-balance error branch is reachable, so the unconditional claim fails.) -/
theorem canPlaceTrade_total (rm : RiskManager) (symbol action : String) (quantity : ℤ)
    (entryPrice stopLoss : ℚ) (targetPrice : Option ℚ) (h : rm.currentBalance ≠ 0) :
    (canPlaceTrade rm symbol action quantity entryPrice stopLoss targetPrice).isSome := by
  unfold canPlaceTrade
  repeat' split
  all_goals first
    | rfl
    | exact canPlaceTradeRisk_isSome rm symbol quantity entryPrice stopLoss h

unseal Rat.mul Rat.add Rat.sub Rat.inv in
/-- C5 witness: a nonzero balance with an open position on the symbol passes
the gate without an exception. -/
theorem canPlaceTrade_total_witness :
    (({ (registerPosition rmDefault "P1" "X" "BUY" 1 10 9 none).2 with
        currentBalance := 100 } : RiskManager).currentBalance ≠ 0)
    ∧ (canPlaceTrade
        ({ (registerPosition rmDefault "P1" "X" "BUY" 1 10 9 none).2 with
          currentBalance := 100 })
        "X" "BUY" 1 10 9 none).isSome :=
  ⟨by decide,
    canPlaceTrade_total
      ({ (registerPosition rmDefault "P1" "X" "BUY" 1 10 9 none).2 with
        currentBalance := 100 })
      "X" "BUY" 1 10 9 none (by decide)⟩

/-! ## C2: per-symbol risk check -/

unseal Rat.mul Rat.add Rat.sub Rat.inv in
/-- C2 counterexample: the claim requires the `MaxRiskPerSymbolExceeded`
failure also when no position is open on the symbol (`S = 0`), but the source
skips check 5 entirely in that case: with balance 100 and a proposed trade of
risk 500 (far above `maxRiskPerSymbol = 1/50`), the gate still validates the
trade. -/
theorem canPlaceTrade_symbol_risk_cx :
    (rmDefault.maxRiskPerSymbol < (0 + calculateTradeRisk 1000 950 10) / 100)
    ∧ symbolPositions ({ rmDefault with currentBalance := 100, peakBalance := 100 }) "X" = []
    ∧ canPlaceTrade ({ rmDefault with currentBalance := 100, peakBalance := 100 })
        "X" "BUY" 10 1000 950 none = some (true, Reason.tradeValidated) :=
  ⟨by decide, by decide, by decide⟩

/-- C2 (amended): when the earlier checks pass, there is at least one open
position on the symbol, and `currentBalance ≠ 0` (so the source's division is
defined), `can_place_trade` fails with `MaxRiskPerSymbolExceeded` whenever
`(S + newRisk) / currentBalance > maxRiskPerSymbol`, where `S` sums
`riskAmount` over the open positions on the symbol and
`newRisk = riskPerUnit * quantity`. -/
theorem canPlaceTrade_symbol_risk (rm : RiskManager) (symbol action : String)
    (quantity : ℤ) (entryPrice stopLoss : ℚ) (targetPrice : Option ℚ)
    (h1 : rm.activePositions.length < rm.maxPositions)
    (h2 : 0 < quantity) (h3 : 0 < entryPrice) (h4 : 0 < stopLoss)
    (h5 : riskRewardOk rm action entryPrice stopLoss targetPrice)
    (h6 : symbolPositions rm symbol ≠ [])
    (h7 : rm.currentBalance ≠ 0)
    (h8 : rm.maxRiskPerSymbol <
      (symbolRisk rm symbol + calculateTradeRisk entryPrice stopLoss quantity)
        / rm.currentBalance) :
    canPlaceTrade rm symbol action quantity entryPrice stopLoss targetPrice
      = some (false, Reason.maxRiskPerSymbolExceeded) := by
  have hrisk : canPlaceTradeRisk rm symbol quantity entryPrice stopLoss
      = some (false, Reason.maxRiskPerSymbolExceeded) := by
    unfold canPlaceTradeRisk
    rcases hsp : symbolPositions rm symbol with _ | ⟨p, ps⟩
    · exact absurd hsp h6
    · rw [if_neg h7, if_pos h8]
  unfold canPlaceTrade
  rw [if_neg (not_le.mpr h1), if_neg (not_le.mpr h2),
    if_neg (by push_neg; exact ⟨h3, h4⟩)]
  cases targetPrice with
  | none => exact hrisk
  | some tgt =>
    rcases h5 with ⟨hpl, hrr⟩
    simp only
    rw [if_neg (not_le.mpr hpl), if_neg hrr]
    exact hrisk

unseal Rat.mul Rat.add Rat.sub Rat.inv in
/-- C2 witness: one open position on "X" with risk 1, balance 50, new risk 1:
`(1 + 1)/50 > 1/50`, and the gate fails with the per-symbol reason. -/
theorem canPlaceTrade_symbol_risk_witness :
    canPlaceTrade
      ({ (registerPosition rmDefault "P1" "X" "BUY" 1 10 9 none).2 with
        currentBalance := 50 })
      "X" "BUY" 1 10 9 none
      = some (false, Reason.maxRiskPerSymbolExceeded) :=
  canPlaceTrade_symbol_risk _ "X" "BUY" 1 10 9 none (by decide) (by decide) (by decide)
    (by decide) trivial (by decide) (by decide) (by decide)



/-! ## Association-list lemmas for the position map -/

theorem keys_cons (k2 : String) (p : Position) (rest : List (String × Position)) :
    keys ((k2, p) :: rest) = k2 :: keys rest := rfl

theorem lookupPos_cons (k k2 : String) (p : Position) (rest : List (String × Position)) :
    lookupPos k ((k2, p) :: rest) = if k2 = k then some p else lookupPos k rest := rfl

theorem setPos_cons (k k2 : String) (p q : Position) (rest : List (String × Position)) :
    setPos k p ((k2, q) :: rest)
      = if k2 = k then (k, p) :: rest else (k2, q) :: setPos k p rest := rfl

theorem erasePos_cons (k k2 : String) (q : Position) (rest : List (String × Position)) :
    erasePos k ((k2, q) :: rest)
      = if k2 = k then rest else (k2, q) :: erasePos k rest := rfl

theorem lookupPos_erasePos_of_none (k k2 : String) :
    ∀ l, lookupPos k l = none → lookupPos k (erasePos k2 l) = none := by
  intro l
  induction l with
  | nil => exact fun h => h
  | cons kv rest ih =>
    intro h
    obtain ⟨k3, p⟩ := kv
    rw [lookupPos_cons] at h
    by_cases hk : k3 = k
    · rw [if_pos hk] at h; cases h
    · rw [if_neg hk] at h
      rw [erasePos_cons]
      by_cases hk2 : k3 = k2
      · rw [if_pos hk2]; exact h
      · rw [if_neg hk2, lookupPos_cons, if_neg hk]
        exact ih h

theorem lookupPos_eq_none_of_not_mem (k : String) :
    ∀ l : List (String × Position), k ∉ keys l → lookupPos k l = none := by
  intro l
  induction l with
  | nil => exact fun _ => rfl
  | cons kv rest ih =>
    intro h
    obtain ⟨k2, p⟩ := kv
    rw [keys_cons, List.mem_cons] at h
    push_neg at h
    rw [lookupPos_cons, if_neg (fun he => h.1 he.symm)]
    exact ih h.2

theorem mem_keys_of_lookupPos (k : String) :
    ∀ l : List (String × Position), lookupPos k l ≠ none → k ∈ keys l := by
  intro l hl
  by_contra h
  exact hl (lookupPos_eq_none_of_not_mem k l h)

theorem lookupPos_erasePos_self (k : String) :
    ∀ l, (keys l).Nodup → lookupPos k (erasePos k l) = none := by
  intro l
  induction l with
  | nil => exact fun _ => rfl
  | cons kv rest ih =>
    intro hnd
    obtain ⟨k2, p⟩ := kv
    rw [keys_cons] at hnd
    have hnd1 := List.nodup_cons.mp hnd
    rw [erasePos_cons]
    by_cases hk : k2 = k
    · rw [if_pos hk]
      exact lookupPos_eq_none_of_not_mem k rest (hk ▸ hnd1.1)
    · rw [if_neg hk, lookupPos_cons, if_neg hk]
      exact ih hnd1.2

theorem lookupPos_setPos_ne (k k2 : String) (p : Position) (h : k2 ≠ k) :
    ∀ l, lookupPos k (setPos k2 p l) = lookupPos k l := by
  intro l
  induction l with
  | nil => simp [setPos, lookupPos, if_neg h]
  | cons kv rest ih =>
    obtain ⟨k3, q⟩ := kv
    rw [setPos_cons]
    by_cases hk : k3 = k2
    · rw [if_pos hk, lookupPos_cons, lookupPos_cons, if_neg h, if_neg (hk ▸ h)]
    · rw [if_neg hk, lookupPos_cons, lookupPos_cons]
      by_cases hk3 : k3 = k
      · rw [if_pos hk3, if_pos hk3]
      · rw [if_neg hk3, if_neg hk3]
        exact ih

theorem mem_setPos (k : String) (p : Position) :
    ∀ l q, q ∈ setPos k p l → q = (k, p) ∨ q ∈ l := by
  intro l
  induction l with
  | nil =>
    intro q hq
    rw [show setPos k p [] = [(k, p)] from rfl] at hq
    exact Or.inl (List.mem_singleton.mp hq)
  | cons kv rest ih =>
    intro q hq
    obtain ⟨k2, r⟩ := kv
    rw [setPos_cons] at hq
    by_cases hk : k2 = k
    · rw [if_pos hk] at hq
      rcases List.mem_cons.mp hq with h | h
      · exact Or.inl h
      · exact Or.inr (List.mem_cons_of_mem _ h)
    · rw [if_neg hk] at hq
      rcases List.mem_cons.mp hq with h | h
      · exact Or.inr (h ▸ List.mem_cons_self _ _)
      · rcases ih q h with h2 | h2
        · exact Or.inl h2
        · exact Or.inr (List.mem_cons_of_mem _ h2)

theorem mem_erasePos (k : String) :
    ∀ l q, q ∈ erasePos k l → q ∈ l := by
  intro l
  induction l with
  | nil => intro q hq; cases hq
  | cons kv rest ih =>
    intro q hq
    obtain ⟨k2, r⟩ := kv
    rw [erasePos_cons] at hq
    by_cases hk : k2 = k
    · rw [if_pos hk] at hq
      exact List.mem_cons_of_mem _ hq
    · rw [if_neg hk] at hq
      rcases List.mem_cons.mp hq with h | h
      · exact h ▸ List.mem_cons_self _ _
      · exact List.mem_cons_of_mem _ (ih q h)

theorem lookupPos_mem (k : String) :
    ∀ l v, lookupPos k l = some v → (k, v) ∈ l := by
  intro l
  induction l with
  | nil => intro v hv; cases hv
  | cons kv rest ih =>
    intro v hv
    obtain ⟨k2, p⟩ := kv
    rw [lookupPos_cons] at hv
    by_cases hk : k2 = k
    · rw [if_pos hk] at hv
      cases hv
      exact hk ▸ List.mem_cons_self _ _
    · rw [if_neg hk] at hv
      exact List.mem_cons_of_mem _ (ih v hv)

/-! ## C7: exit conditions -/

/-- C7: full characterisation of `check_exit_conditions`.  For a Long (BUY)
position: stop-loss fires iff `currentPrice ≤ stopLoss`; otherwise the target
fires iff a target is set and `currentPrice ≥ target`; otherwise no exit.
Symmetrically for a Short (SELL) position.  The embedding is a pure function
of the position and price — the source only reads its arguments, so neither
the position nor the manager state is mutated. -/
theorem checkExitConditions_spec (p : Position) (currentPrice : ℚ) :
    (p.action = "BUY" →
      ((currentPrice ≤ p.stopLoss →
        checkExitConditions (some p) currentPrice = (true, "Stop loss triggered"))
      ∧ (∀ tgt, ¬ currentPrice ≤ p.stopLoss → p.targetPrice = some tgt →
          tgt ≤ currentPrice →
        checkExitConditions (some p) currentPrice = (true, "Target price reached"))
      ∧ (¬ currentPrice ≤ p.stopLoss →
          (p.targetPrice = none ∨ ∃ tgt, p.targetPrice = some tgt ∧ currentPrice < tgt) →
        checkExitConditions (some p) currentPrice = (false, "No exit condition met"))))
    ∧ (p.action = "SELL" →
      ((p.stopLoss ≤ currentPrice →
        checkExitConditions (some p) currentPrice = (true, "Stop loss triggered"))
      ∧ (∀ tgt, ¬ p.stopLoss ≤ currentPrice → p.targetPrice = some tgt →
          currentPrice ≤ tgt →
        checkExitConditions (some p) currentPrice = (true, "Target price reached"))
      ∧ (¬ p.stopLoss ≤ currentPrice →
          (p.targetPrice = none ∨ ∃ tgt, p.targetPrice = some tgt ∧ tgt < currentPrice) →
        checkExitConditions (some p) currentPrice = (false, "No exit condition met")))) := by
  constructor
  · intro hb
    have hne : p.action ≠ "SELL" := by rw [hb]; decide
    refine ⟨?_, ?_, ?_⟩
    · intro hst
      simp only [checkExitConditions]
      rw [if_pos ⟨hb, hst⟩]
    · intro tgt hst htgt hge
      simp only [checkExitConditions]
      rw [if_neg (fun hc => hst hc.2), if_neg (fun hc => hne hc.1), htgt]
      simp only
      rw [if_pos ⟨hb, hge⟩]
    · intro hst hcase
      simp only [checkExitConditions]
      rw [if_neg (fun hc => hst hc.2), if_neg (fun hc => hne hc.1)]
      rcases hcase with hnone | ⟨tgt, htgt, hlt⟩
      · rw [hnone]
      · rw [htgt]
        simp only
        rw [if_neg (fun hc => (not_le.mpr hlt) hc.2), if_neg (fun hc => hne hc.1)]
  · intro hs
    have hne : p.action ≠ "BUY" := by rw [hs]; decide
    refine ⟨?_, ?_, ?_⟩
    · intro hst
      simp only [checkExitConditions]
      rw [if_neg (fun hc => hne hc.1), if_pos ⟨hs, hst⟩]
    · intro tgt hst htgt hle
      simp only [checkExitConditions]
      rw [if_neg (fun hc => hne hc.1), if_neg (fun hc => hst hc.2), htgt]
      simp only
      rw [if_neg (fun hc => hne hc.1), if_pos ⟨hs, hle⟩]
    · intro hst hcase
      simp only [checkExitConditions]
      rw [if_neg (fun hc => hne hc.1), if_neg (fun hc => hst hc.2)]
      rcases hcase with hnone | ⟨tgt, htgt, hlt⟩
      · rw [hnone]
      · rw [htgt]
        simp only
        rw [if_neg (fun hc => hne hc.1), if_neg (fun hc => (not_le.mpr hlt) hc.2)]

unseal Rat.mul Rat.add Rat.sub Rat.inv in
/-- C7 witness: the spec example — Long with entry 100, stop 95, target 110 —
exits on stop at 94, on target at 111, and not at 102. -/
theorem checkExitConditions_spec_witness :
    checkExitConditions (some posWitness) 94 = (true, "Stop loss triggered")
    ∧ checkExitConditions (some posWitness) 111 = (true, "Target price reached")
    ∧ checkExitConditions (some posWitness) 102 = (false, "No exit condition met") :=
  ⟨((checkExitConditions_spec posWitness 94).1 rfl).1 (by decide),
    ((checkExitConditions_spec posWitness 111).1 rfl).2.1 110 (by decide) rfl (by decide),
    ((checkExitConditions_spec posWitness 102).1 rfl).2.2 (by decide)
      (Or.inr ⟨110, rfl, by decide⟩)⟩

/-! ## C8: unknown ids are silent no-ops -/

/-- C8: operating on an id that is not in `activePositions` returns the
absent result and leaves the whole manager state unchanged, for both
`update_position` and `close_position`; consequently a second
`close_position` on an id just successfully closed (on a map with distinct
keys, as in every Python dict) is a no-op that changes nothing. -/
theorem missing_position_noop :
    (∀ (rm : RiskManager) (k : String) (price exitPrice : ℚ) (reason : String),
      lookupPos k rm.activePositions = none →
      updatePosition rm k price = (none, rm)
      ∧ closePosition rm k exitPrice reason = (none, rm))
    ∧ (∀ (rm : RiskManager) (k : String) (e1 e2 : ℚ) (r1 r2 : String),
      (keys rm.activePositions).Nodup →
      ((closePosition rm k e1 r1).1).isSome →
      closePosition (closePosition rm k e1 r1).2 k e2 r2
        = (none, (closePosition rm k e1 r1).2)) := by
  have hbase : ∀ (rm : RiskManager) (k : String) (price exitPrice : ℚ) (reason : String),
      lookupPos k rm.activePositions = none →
      updatePosition rm k price = (none, rm)
      ∧ closePosition rm k exitPrice reason = (none, rm) := by
    intro rm k price exitPrice reason h
    constructor
    · unfold updatePosition
      rw [h]
    · unfold closePosition
      rw [h]
  refine ⟨hbase, ?_⟩
  intro rm k e1 e2 r1 r2 hnd hsome
  have hact : (closePosition rm k e1 r1).2.activePositions
      = erasePos k rm.activePositions := by
    unfold closePosition at hsome ⊢
    rcases hl : lookupPos k rm.activePositions with _ | pos
    · rw [hl] at hsome
      simp at hsome
    · rfl
  have hlook : lookupPos k (closePosition rm k e1 r1).2.activePositions = none := by
    rw [hact]
    exact lookupPos_erasePos_self k rm.activePositions hnd
  exact (hbase _ k e2 e2 r2 hlook).2

unseal Rat.mul Rat.add Rat.sub Rat.inv in
/-- C8 witness: closing an unknown id on the default manager is a no-op, and
closing "A" twice after registering it once succeeds then is a no-op the
second time. -/
theorem missing_position_noop_witness :
    updatePosition rmDefault "ghost" 10 = (none, rmDefault)
    ∧ closePosition rmDefault "ghost" 10 "Stop" = (none, rmDefault)
    ∧ closePosition
        (closePosition (registerPosition rmDefault "A" "NIFTY" "BUY" 200 1000 950 none).2
          "A" 1050 "Target").2 "A" 1050 "Target"
      = (none,
        (closePosition (registerPosition rmDefault "A" "NIFTY" "BUY" 200 1000 950 none).2
          "A" 1050 "Target").2) :=
  ⟨(missing_position_noop.1 rmDefault "ghost" 10 10 "Stop" (by decide)).1,
    (missing_position_noop.1 rmDefault "ghost" 10 10 "Stop" (by decide)).2,
    missing_position_noop.2
      (registerPosition rmDefault "A" "NIFTY" "BUY" 200 1000 950 none).2
      "A" 1050 1050 "Target" "Target" (by decide) (by decide)⟩

/-! ## C3: closing a position -/

/-- C3: closing an open position `k` computes the directional realised P&L,
returns the closed copy (status `"closed"`, exit fields stamped), increments
`totalTrades`, adds the P&L to `dailyPnl`, routes it into
`winningTrades`/`totalProfit` when positive and into
`losingTrades`/`totalLoss` (absolute value) otherwise — zero counts as a
loss — and removes `k` from `activePositions` (keys are distinct in every
Python dict). -/
theorem closePosition_spec (rm : RiskManager) (k : String) (exitPrice : ℚ)
    (reason : String) (pos : Position)
    (hk : lookupPos k rm.activePositions = some pos)
    (hnd : (keys rm.activePositions).Nodup) :
    (closePosition rm k exitPrice reason).1
      = some { pos with
          status := "closed",
          exitPrice := some exitPrice,
          realizedPnl := some (directionalPnl pos exitPrice),
          exitReason := some reason }
    ∧ (closePosition rm k exitPrice reason).2.totalTrades = rm.totalTrades + 1
    ∧ (closePosition rm k exitPrice reason).2.dailyPnl
      = rm.dailyPnl + directionalPnl pos exitPrice
    ∧ (0 < directionalPnl pos exitPrice →
      (closePosition rm k exitPrice reason).2.winningTrades = rm.winningTrades + 1
      ∧ (closePosition rm k exitPrice reason).2.totalProfit
        = rm.totalProfit + directionalPnl pos exitPrice
      ∧ (closePosition rm k exitPrice reason).2.losingTrades = rm.losingTrades
      ∧ (closePosition rm k exitPrice reason).2.totalLoss = rm.totalLoss)
    ∧ (¬ 0 < directionalPnl pos exitPrice →
      (closePosition rm k exitPrice reason).2.losingTrades = rm.losingTrades + 1
      ∧ (closePosition rm k exitPrice reason).2.totalLoss
        = rm.totalLoss + |directionalPnl pos exitPrice|
      ∧ (closePosition rm k exitPrice reason).2.winningTrades = rm.winningTrades
      ∧ (closePosition rm k exitPrice reason).2.totalProfit = rm.totalProfit)
    ∧ lookupPos k (closePosition rm k exitPrice reason).2.activePositions = none := by
  refine ⟨?_, ?_, ?_, ?_, ?_, ?_⟩
  · simp only [closePosition, hk]
  · simp only [closePosition, hk]
  · simp only [closePosition, hk]
  · intro hpos
    simp only [closePosition, hk]
    rw [if_pos hpos, if_pos hpos, if_pos hpos, if_pos hpos]
    exact ⟨rfl, rfl, rfl, rfl⟩
  · intro hpos
    simp only [closePosition, hk]
    rw [if_neg hpos, if_neg hpos, if_neg hpos, if_neg hpos]
    exact ⟨rfl, rfl, rfl, rfl⟩
  · simp only [closePosition, hk]
    exact lookupPos_erasePos_self k rm.activePositions hnd

unseal Rat.mul Rat.add Rat.sub Rat.inv in
/-- C3 witness: the spec close scenario — register Long "A" with quantity 200
and entry 1000, close at 1050 — yields realised P&L 10000, one more winning
trade, and "A" gone from the active set. -/
theorem closePosition_spec_witness :
    lookupPos "A" (registerPosition rmDefault "A" "NIFTY" "BUY" 200 1000 950 none).2.activePositions = some posA
    ∧ directionalPnl posA 1050 = 10000
    ∧ (closePosition (registerPosition rmDefault "A" "NIFTY" "BUY" 200 1000 950 none).2
        "A" 1050 "Target").2.winningTrades = rmDefault.winningTrades + 1
    ∧ lookupPos "A" (closePosition
        (registerPosition rmDefault "A" "NIFTY" "BUY" 200 1000 950 none).2
        "A" 1050 "Target").2.activePositions = none := by
  refine ⟨by decide, by decide, ?_, ?_⟩
  · exact ((closePosition_spec
      (registerPosition rmDefault "A" "NIFTY" "BUY" 200 1000 950 none).2
      "A" 1050 "Target" posA (by decide) (by decide)).2.2.2.1 (by decide)).1
  · exact (closePosition_spec
      (registerPosition rmDefault "A" "NIFTY" "BUY" 200 1000 950 none).2
      "A" 1050 "Target" posA (by decide) (by decide)).2.2.2.2.2



/-! ## C4: invariants of call sequences -/

theorem registeredIds_cons_register (orderId symbol action : String) (quantity : ℤ)
    (entryPrice stopLoss : ℚ) (targetPrice : Option ℚ) (rest : List Op) :
    registeredIds (Op.register orderId symbol action quantity entryPrice stopLoss
        targetPrice :: rest)
      = orderId :: registeredIds rest := rfl

theorem registeredIds_cons_update (positionId : String) (currentPrice : ℚ) (rest : List Op) :
    registeredIds (Op.update positionId currentPrice :: rest) = registeredIds rest := rfl

theorem registeredIds_cons_close (positionId : String) (exitPrice : ℚ) (reason : String)
    (rest : List Op) :
    registeredIds (Op.close positionId exitPrice reason :: rest) = registeredIds rest := rfl

theorem runOps_cons (rm : RiskManager) (op : Op) (rest : List Op) :
    runOps rm (op :: rest) = runOps (applyOp rm op) rest := rfl

theorem lookupPos_ne_none_of_mem_keys (k : String) :
    ∀ l : List (String × Position), k ∈ keys l → lookupPos k l ≠ none := by
  intro l
  induction l with
  | nil => intro h; cases h
  | cons kv rest ih =>
    intro h
    obtain ⟨k2, p⟩ := kv
    rw [keys_cons, List.mem_cons] at h
    rw [lookupPos_cons]
    by_cases hk : k2 = k
    · rw [if_pos hk]; simp
    · rw [if_neg hk]
      exact ih (h.resolve_left (fun he => hk he.symm))

theorem not_mem_keys_of_lookupPos_none (k : String) (l : List (String × Position))
    (h : lookupPos k l = none) : k ∉ keys l :=
  fun hm => lookupPos_ne_none_of_mem_keys k l hm h

theorem keys_setPos_absent (k : String) (p : Position) :
    ∀ l, lookupPos k l = none → keys (setPos k p l) = keys l ++ [k] := by
  intro l
  induction l with
  | nil => exact fun _ => rfl
  | cons kv rest ih =>
    intro h
    obtain ⟨k2, q⟩ := kv
    rw [lookupPos_cons] at h
    by_cases hk : k2 = k
    · rw [if_pos hk] at h; cases h
    · rw [if_neg hk] at h
      rw [setPos_cons, if_neg hk, keys_cons, keys_cons, ih h]
      rfl

theorem keys_setPos_present (k : String) (p : Position) :
    ∀ l v, lookupPos k l = some v → keys (setPos k p l) = keys l := by
  intro l
  induction l with
  | nil => intro v hv; cases hv
  | cons kv rest ih =>
    intro v hv
    obtain ⟨k2, q⟩ := kv
    rw [lookupPos_cons] at hv
    by_cases hk : k2 = k
    · rw [setPos_cons, if_pos hk, keys_cons, keys_cons, hk]
    · rw [if_neg hk] at hv
      rw [setPos_cons, if_neg hk, keys_cons, keys_cons, ih v hv]

theorem keys_erasePos_sublist (k : String) :
    ∀ l, List.Sublist (keys (erasePos k l)) (keys l) := by
  intro l
  induction l with
  | nil => exact List.Sublist.refl _
  | cons kv rest ih =>
    obtain ⟨k2, q⟩ := kv
    rw [erasePos_cons]
    by_cases hk : k2 = k
    · rw [if_pos hk, keys_cons]
      exact List.sublist_cons_self _ _
    · rw [if_neg hk, keys_cons, keys_cons]
      exact List.Sublist.cons₂ _ ih

theorem applyOp_register (rm : RiskManager) (orderId symbol action : String)
    (quantity : ℤ) (entryPrice stopLoss : ℚ) (targetPrice : Option ℚ) :
    applyOp rm (Op.register orderId symbol action quantity entryPrice stopLoss targetPrice)
      = (registerPosition rm orderId symbol action quantity entryPrice stopLoss
          targetPrice).2 := rfl

theorem applyOp_update (rm : RiskManager) (positionId : String) (currentPrice : ℚ) :
    applyOp rm (Op.update positionId currentPrice)
      = (updatePosition rm positionId currentPrice).2 := rfl

theorem applyOp_close (rm : RiskManager) (positionId : String) (exitPrice : ℚ)
    (reason : String) :
    applyOp rm (Op.close positionId exitPrice reason)
      = (closePosition rm positionId exitPrice reason).2 := rfl

theorem countersOk_applyOp (rm : RiskManager) (op : Op)
    (h : rm.totalTrades = rm.winningTrades + rm.losingTrades) :
    (applyOp rm op).totalTrades
      = (applyOp rm op).winningTrades + (applyOp rm op).losingTrades := by
  cases op with
  | register orderId symbol action quantity entryPrice stopLoss targetPrice => exact h
  | update positionId currentPrice =>
    rw [applyOp_update]
    unfold updatePosition
    rcases hl : lookupPos positionId rm.activePositions with _ | pos
    · exact h
    · exact h
  | close positionId exitPrice reason =>
    rw [applyOp_close]
    unfold closePosition
    rcases hl : lookupPos positionId rm.activePositions with _ | pos
    · exact h
    · simp only
      by_cases hp : 0 < directionalPnl pos exitPrice
      · rw [if_pos hp, if_pos hp]
        omega
      · rw [if_neg hp, if_neg hp]
        omega

theorem countersOk_runOps :
    ∀ (ops : List Op) (rm : RiskManager),
      rm.totalTrades = rm.winningTrades + rm.losingTrades →
      (runOps rm ops).totalTrades
        = (runOps rm ops).winningTrades + (runOps rm ops).losingTrades := by
  intro ops
  induction ops with
  | nil => exact fun rm h => h
  | cons op rest ih =>
    intro rm h
    rw [runOps_cons]
    exact ih (applyOp rm op) (countersOk_applyOp rm op h)

theorem statusesOpen_applyOp (rm : RiskManager) (op : Op)
    (h : ∀ pr ∈ rm.activePositions, pr.2.status = "open") :
    ∀ pr ∈ (applyOp rm op).activePositions, pr.2.status = "open" := by
  cases op with
  | register orderId symbol action quantity entryPrice stopLoss targetPrice =>
    intro pr hpr
    rcases mem_setPos orderId _ rm.activePositions pr hpr with he | hm
    · rw [he]
    · exact h pr hm
  | update positionId currentPrice =>
    rw [applyOp_update]
    unfold updatePosition
    rcases hl : lookupPos positionId rm.activePositions with _ | pos
    · exact h
    · intro pr hpr
      rcases mem_setPos positionId _ rm.activePositions pr hpr with he | hm
      · rw [he]
        exact h (positionId, pos) (lookupPos_mem positionId rm.activePositions pos hl)
      · exact h pr hm
  | close positionId exitPrice reason =>
    rw [applyOp_close]
    unfold closePosition
    rcases hl : lookupPos positionId rm.activePositions with _ | pos
    · exact h
    · intro pr hpr
      exact h pr (mem_erasePos positionId rm.activePositions pr hpr)

theorem statusesOpen_runOps :
    ∀ (ops : List Op) (rm : RiskManager),
      (∀ pr ∈ rm.activePositions, pr.2.status = "open") →
      ∀ pr ∈ (runOps rm ops).activePositions, pr.2.status = "open" := by
  intro ops
  induction ops with
  | nil => exact fun rm h => h
  | cons op rest ih =>
    intro rm h
    rw [runOps_cons]
    exact ih (applyOp rm op) (statusesOpen_applyOp rm op h)

theorem lookupPos_runOps_none (k : String) :
    ∀ (ops : List Op) (rm : RiskManager),
      lookupPos k rm.activePositions = none → k ∉ registeredIds ops →
      lookupPos k (runOps rm ops).activePositions = none := by
  intro ops
  induction ops with
  | nil => exact fun rm h _ => h
  | cons op rest ih =>
    intro rm h hreg
    rw [runOps_cons]
    cases op with
    | register orderId symbol action quantity entryPrice stopLoss targetPrice =>
      rw [registeredIds_cons_register, List.mem_cons] at hreg
      push_neg at hreg
      refine ih _ ?_ hreg.2
      have hne : orderId ≠ k := fun he => hreg.1 he.symm
      exact (lookupPos_setPos_ne k orderId _ hne rm.activePositions).trans h
    | update positionId currentPrice =>
      rw [registeredIds_cons_update] at hreg
      refine ih _ ?_ hreg
      rw [applyOp_update]
      unfold updatePosition
      rcases hl : lookupPos positionId rm.activePositions with _ | pos
      · exact h
      · have hne : positionId ≠ k := by
          intro he
          rw [he, h] at hl
          cases hl
        exact (lookupPos_setPos_ne k positionId _ hne rm.activePositions).trans h
    | close positionId exitPrice reason =>
      rw [registeredIds_cons_close] at hreg
      refine ih _ ?_ hreg
      rw [applyOp_close]
      unfold closePosition
      rcases hl : lookupPos positionId rm.activePositions with _ | pos
      · exact h
      · exact lookupPos_erasePos_of_none k positionId rm.activePositions h

theorem lookupPos_runOps_some_mem (k : String) :
    ∀ (ops : List Op) (rm : RiskManager),
      lookupPos k (runOps rm ops).activePositions ≠ none →
      lookupPos k rm.activePositions ≠ none ∨ k ∈ registeredIds ops := by
  intro ops
  induction ops with
  | nil => exact fun rm h => Or.inl h
  | cons op rest ih =>
    intro rm h
    rw [runOps_cons] at h
    rcases ih (applyOp rm op) h with h1 | h1
    · cases op with
      | register orderId symbol action quantity entryPrice stopLoss targetPrice =>
        by_cases hk : orderId = k
        · exact Or.inr (by rw [registeredIds_cons_register]; exact hk ▸ List.mem_cons_self _ _)
        · rw [registeredIds_cons_register]
          refine Or.imp (fun h2 => h2) (List.mem_cons_of_mem _) ?_
          left
          intro hnone
          exact h1 ((lookupPos_setPos_ne k orderId _ hk rm.activePositions).trans hnone)
      | update positionId currentPrice =>
        rw [registeredIds_cons_update]
        left
        intro hnone
        revert h1
        rw [applyOp_update]
        unfold updatePosition
        rcases hl : lookupPos positionId rm.activePositions with _ | pos
        · exact fun h1 => h1 hnone
        · intro h1
          by_cases hk : positionId = k
          · rw [hk] at hl
            rw [hl] at hnone
            cases hnone
          · exact h1 ((lookupPos_setPos_ne k positionId _ hk rm.activePositions).trans hnone)
      | close positionId exitPrice reason =>
        rw [registeredIds_cons_close]
        left
        intro hnone
        revert h1
        rw [applyOp_close]
        unfold closePosition
        rcases hl : lookupPos positionId rm.activePositions with _ | pos
        · exact fun h1 => h1 hnone
        · exact fun h1 => h1 (lookupPos_erasePos_of_none k positionId rm.activePositions hnone)
    · right
      cases op with
      | register orderId symbol action quantity entryPrice stopLoss targetPrice =>
        rw [registeredIds_cons_register]
        exact List.mem_cons_of_mem _ h1
      | update positionId currentPrice => exact h1
      | close positionId exitPrice reason => exact h1

theorem keys_runOps_nodup :
    ∀ (ops : List Op) (rm : RiskManager),
      (keys rm.activePositions).Nodup → (registeredIds ops).Nodup →
      (∀ k2 ∈ registeredIds ops, lookupPos k2 rm.activePositions = none) →
      (keys (runOps rm ops).activePositions).Nodup := by
  intro ops
  induction ops with
  | nil => exact fun rm h _ _ => h
  | cons op rest ih =>
    intro rm h hreg habs
    rw [runOps_cons]
    cases op with
    | register orderId symbol action quantity entryPrice stopLoss targetPrice =>
      rw [registeredIds_cons_register] at hreg habs
      have habs0 : lookupPos orderId rm.activePositions = none :=
        habs orderId (List.mem_cons_self _ _)
      have hkeys : keys (applyOp rm (Op.register orderId symbol action quantity entryPrice
          stopLoss targetPrice)).activePositions = keys rm.activePositions ++ [orderId] :=
        keys_setPos_absent orderId _ rm.activePositions habs0
      refine ih _ ?_ (List.nodup_cons.mp hreg).2 ?_
      · rw [hkeys]
        rw [List.nodup_append]
        exact ⟨h, List.nodup_singleton _, fun a ha ha2 =>
          (not_mem_keys_of_lookupPos_none orderId rm.activePositions habs0)
            ((List.mem_singleton.mp ha2) ▸ ha)⟩
      · intro k2 hk2
        have hne : orderId ≠ k2 := fun he =>
          (List.nodup_cons.mp hreg).1 (he ▸ hk2)
        exact (lookupPos_setPos_ne k2 orderId _ hne rm.activePositions).trans
          (habs k2 (List.mem_cons_of_mem _ hk2))
    | update positionId currentPrice =>
      rw [registeredIds_cons_update] at hreg habs
      refine ih _ ?_ hreg ?_
      · revert h
        rw [applyOp_update]
        unfold updatePosition
        rcases hl : lookupPos positionId rm.activePositions with _ | pos
        · exact fun h => h
        · intro h
          rw [keys_setPos_present positionId _ rm.activePositions pos hl]
          exact h
      · intro k2 hk2
        have h2 := habs k2 hk2
        revert h2
        rw [applyOp_update]
        unfold updatePosition
        rcases hl : lookupPos positionId rm.activePositions with _ | pos
        · exact fun h2 => h2
        · intro h2
          have hne : positionId ≠ k2 := by
            intro he
            rw [he, h2] at hl
            cases hl
          exact (lookupPos_setPos_ne k2 positionId _ hne rm.activePositions).trans h2
    | close positionId exitPrice reason =>
      rw [registeredIds_cons_close] at hreg habs
      refine ih _ ?_ hreg ?_
      · revert h
        rw [applyOp_close]
        unfold closePosition
        rcases hl : lookupPos positionId rm.activePositions with _ | pos
        · exact fun h => h
        · intro h
          exact h.sublist (keys_erasePos_sublist positionId rm.activePositions)
      · intro k2 hk2
        have h2 := habs k2 hk2
        revert h2
        rw [applyOp_close]
        unfold closePosition
        rcases hl : lookupPos positionId rm.activePositions with _ | pos
        · exact fun h2 => h2
        · exact fun h2 => lookupPos_erasePos_of_none k2 positionId rm.activePositions h2

/-- C4: for every call sequence on a fresh risk manager in which no id is
registered twice, the final state satisfies
`totalTrades = winningTrades + losingTrades`, every stored position has
status `"open"`, and every id whose `close_position` call found the position
(a successful close) is absent from `activePositions` at the end. -/
theorem runOps_invariants (c1 : ℚ) (c2 : ℕ) (c3 c4 c5 c6 : ℚ) (ops : List Op)
    (hnodup : (registeredIds ops).Nodup) :
    (runOps (freshRM c1 c2 c3 c4 c5 c6) ops).totalTrades
      = (runOps (freshRM c1 c2 c3 c4 c5 c6) ops).winningTrades
        + (runOps (freshRM c1 c2 c3 c4 c5 c6) ops).losingTrades
    ∧ (∀ pr ∈ (runOps (freshRM c1 c2 c3 c4 c5 c6) ops).activePositions,
        pr.2.status = "open")
    ∧ (∀ (pre post : List Op) (k : String) (exitPrice : ℚ) (reason : String),
        ops = pre ++ Op.close k exitPrice reason :: post →
        lookupPos k (runOps (freshRM c1 c2 c3 c4 c5 c6) pre).activePositions ≠ none →
        lookupPos k (runOps (freshRM c1 c2 c3 c4 c5 c6) ops).activePositions = none) := by
  refine ⟨countersOk_runOps ops _ rfl, statusesOpen_runOps ops _ (by intro pr hpr; cases hpr),
    ?_⟩
  intro pre post k exitPrice reason heq hsucc
  subst heq
  have hreg : (registeredIds pre ++ registeredIds post).Nodup := by
    have : registeredIds (pre ++ Op.close k exitPrice reason :: post)
        = registeredIds pre ++ registeredIds post := by
      rw [registeredIds, List.filterMap_append]
      rfl
    rw [this] at hnodup
    exact hnodup
  have hk_pre : k ∈ registeredIds pre := by
    rcases lookupPos_runOps_some_mem k pre (freshRM c1 c2 c3 c4 c5 c6) hsucc with hl | hm
    · exact absurd rfl hl
    · exact hm
  have hk_post : k ∉ registeredIds post :=
    fun hm => (List.nodup_append.mp hreg).2.2 hk_pre hm
  have hs1nodup : (keys (runOps (freshRM c1 c2 c3 c4 c5 c6) pre).activePositions).Nodup :=
    keys_runOps_nodup pre _ (List.nodup_nil) (List.nodup_append.mp hreg).1
      (fun k2 _ => rfl)
  have hsplit : runOps (freshRM c1 c2 c3 c4 c5 c6)
        (pre ++ Op.close k exitPrice reason :: post)
      = runOps (applyOp (runOps (freshRM c1 c2 c3 c4 c5 c6) pre)
          (Op.close k exitPrice reason)) post := by
    rw [runOps, List.foldl_append]
    rfl
  have hafter : lookupPos k (applyOp (runOps (freshRM c1 c2 c3 c4 c5 c6) pre)
      (Op.close k exitPrice reason)).activePositions = none := by
    rw [applyOp_close]
    unfold closePosition
    rcases hl : lookupPos k (runOps (freshRM c1 c2 c3 c4 c5 c6) pre).activePositions
        with _ | pos
    · exact absurd hl hsucc
    · exact lookupPos_erasePos_self k _ hs1nodup
  rw [hsplit]
  exact lookupPos_runOps_none k post _ hafter hk_post

unseal Rat.mul Rat.add Rat.sub Rat.inv in
/-- C4 witness: the register-then-close sequence on a fresh manager keeps the
counters conserved and leaves "A" absent from the active set. -/
theorem runOps_invariants_witness :
    (runOps (freshRM (1/100) 5 (1/50) (1/20) (1/10) (3/2)) opsW).totalTrades
      = (runOps (freshRM (1/100) 5 (1/50) (1/20) (1/10) (3/2)) opsW).winningTrades
        + (runOps (freshRM (1/100) 5 (1/50) (1/20) (1/10) (3/2)) opsW).losingTrades
    ∧ lookupPos "A" ((runOps (freshRM (1/100) 5 (1/50) (1/20) (1/10) (3/2)) opsW).activePositions) = none :=
  ⟨(runOps_invariants (1/100) 5 (1/50) (1/20) (1/10) (3/2) opsW (by decide)).1,
    (runOps_invariants (1/100) 5 (1/50) (1/20) (1/10) (3/2) opsW (by decide)).2.2
      [Op.register "A" "NIFTY" "BUY" 200 1000 950 none] [] "A" 1050 "Target" rfl
      (by decide)⟩


/-! ## C9: target-list structure -/

theorem mem_filter_above {vs used : List ℚ} {entryValue m : ℚ}
    (hm : m ∈ vs.filter (fun v => entryValue < v ∧ v ∉ used)) :
    entryValue < m ∧ m ∉ used := by
  have h := (List.mem_filter.mp hm).2
  simpa using h

theorem mem_filter_below {vs used : List ℚ} {sellBelowValue m : ℚ}
    (hm : m ∈ vs.filter (fun v => v < sellBelowValue ∧ v ∉ used)) :
    m < sellBelowValue ∧ m ∉ used := by
  have h := (List.mem_filter.mp hm).2
  simpa using h

theorem collectBuyTargets_props (gv : List (ℕ × List ℚ)) (entryValue : ℚ) :
    ∀ (as : List ℕ) (used : List ℚ) (res : List (ℕ × ℚ)),
      collectBuyTargets gv entryValue as used = some res →
      (res.map Prod.snd).Nodup
      ∧ (∀ v ∈ res.map Prod.snd, v ∉ used)
      ∧ List.Sublist (res.map Prod.fst) as := by
  intro as
  induction as with
  | nil =>
    intro used res h
    cases h
    exact ⟨List.nodup_nil, by simp, List.nil_sublist _⟩
  | cons a rest ih =>
    intro used res h
    unfold collectBuyTargets at h
    rcases hla : lookupAngle a gv with _ | vs
    · rw [hla] at h; cases h
    · rw [hla] at h
      simp only at h
      rcases hmin : (vs.filter (fun v => entryValue < v ∧ v ∉ used)).min? with _ | m
      · rw [hmin] at h
        obtain ⟨h1, h2, h3⟩ := ih used res h
        exact ⟨h1, h2, h3.cons a⟩
      · simp only [hmin] at h
        rcases hrec : collectBuyTargets gv entryValue rest (m :: used) with _ | ts
        · rw [hrec] at h; cases h
        · rw [hrec] at h
          simp only [Option.map_some'] at h
          cases h
          obtain ⟨hnd, hused, hsub⟩ := ih (m :: used) ts hrec
          have hm_prop : entryValue < m ∧ m ∉ used :=
            mem_filter_above (List.min?_mem (fun x y => min_choice x y) hmin)
          refine ⟨?_, ?_, ?_⟩
          · refine List.nodup_cons.mpr ⟨?_, hnd⟩
            intro hmem
            exact (hused m hmem) (List.mem_cons_self m used)
          · intro v hv
            rcases List.mem_cons.mp hv with he | hmem
            · exact he ▸ hm_prop.2
            · exact fun hu => hused v hmem (List.mem_cons_of_mem _ hu)
          · exact List.Sublist.cons₂ a hsub

theorem collectSellTargets_props (gv : List (ℕ × List ℚ)) (sellBelowValue : ℚ) :
    ∀ (as : List ℕ) (used : List ℚ) (res : List (ℕ × ℚ)),
      collectSellTargets gv sellBelowValue as used = some res →
      (res.map Prod.snd).Nodup
      ∧ (∀ v ∈ res.map Prod.snd, v ∉ used) := by
  intro as
  induction as with
  | nil =>
    intro used res h
    cases h
    exact ⟨List.nodup_nil, by simp⟩
  | cons a rest ih =>
    intro used res h
    unfold collectSellTargets at h
    rcases hla : lookupAngle a gv with _ | vs
    · rw [hla] at h; cases h
    · rw [hla] at h
      simp only at h
      rcases hmax : (vs.filter (fun v => v < sellBelowValue ∧ v ∉ used)).max? with _ | m
      · rw [hmax] at h
        exact ih used res h
      · simp only [hmax] at h
        rcases hrec : collectSellTargets gv sellBelowValue rest (m :: used) with _ | ts
        · rw [hrec] at h; cases h
        · rw [hrec] at h
          simp only [Option.map_some'] at h
          cases h
          obtain ⟨hnd, hused⟩ := ih (m :: used) ts hrec
          have hm_prop : m < sellBelowValue ∧ m ∉ used :=
            mem_filter_below (List.max?_mem (fun x y => max_choice x y) hmax)
          refine ⟨?_, ?_⟩
          · refine List.nodup_cons.mpr ⟨?_, hnd⟩
            intro hmem
            exact (hused m hmem) (List.mem_cons_self m used)
          · intro v hv
            rcases List.mem_cons.mp hv with he | hmem
            · exact he ▸ hm_prop.2
            · exact fun hu => hused v hmem (List.mem_cons_of_mem _ hu)

theorem sortByPriceAsc_strict (l : List (ℕ × ℚ)) (hnd : (l.map Prod.snd).Nodup) :
    ((sortByPriceAsc l).map Prod.snd).Pairwise (· < ·) := by
  have hsorted : List.Sorted priceLe (sortByPriceAsc l) :=
    List.sorted_insertionSort priceLe l
  have hperm : List.Perm ((sortByPriceAsc l).map Prod.snd) (l.map Prod.snd) :=
    (List.perm_insertionSort priceLe l).map Prod.snd
  have hnd2 : ((sortByPriceAsc l).map Prod.snd).Nodup := hperm.nodup_iff.mpr hnd
  have hnd3 : List.Pairwise (fun a b : ℕ × ℚ => a.2 ≠ b.2) (sortByPriceAsc l) := by
    simpa [List.Nodup, List.pairwise_map] using hnd2
  rw [List.pairwise_map]
  exact (hsorted.and hnd3).imp (fun h => lt_of_le_of_ne h.1 h.2)

theorem sortByPriceDesc_strict (l : List (ℕ × ℚ)) (hnd : (l.map Prod.snd).Nodup) :
    ((sortByPriceDesc l).map Prod.snd).Pairwise (· > ·) := by
  have hsorted : List.Sorted priceGe (sortByPriceDesc l) :=
    List.sorted_insertionSort priceGe l
  have hperm : List.Perm ((sortByPriceDesc l).map Prod.snd) (l.map Prod.snd) :=
    (List.perm_insertionSort priceGe l).map Prod.snd
  have hnd2 : ((sortByPriceDesc l).map Prod.snd).Nodup := hperm.nodup_iff.mpr hnd
  have hnd3 : List.Pairwise (fun a b : ℕ × ℚ => a.2 ≠ b.2) (sortByPriceDesc l) := by
    simpa [List.Nodup, List.pairwise_map] using hnd2
  rw [List.pairwise_map]
  exact (hsorted.and hnd3).imp (fun h => lt_of_le_of_ne h.1 (Ne.symm h.2))

theorem pairwise_snd_take {R : ℚ → ℚ → Prop} (l : List (ℕ × ℚ)) (n : ℕ)
    (h : (l.map Prod.snd).Pairwise R) : ((l.take n).map Prod.snd).Pairwise R := by
  rw [List.map_take]
  exact h.sublist (List.take_sublist n _)

/-- C9: in every non-empty result of `calculate`, the buy-target prices are
strictly increasing (hence no price appears twice) with pairwise-distinct
axes (at most one target per axis), the sell-target prices are strictly
decreasing (hence no duplicate), and both lists are truncated to the cap
count 3 passed by `calculate`. -/
theorem calculate_targets_spec (p : GannParams) (price : ℚ) (r : GannResult)
    (h : calculate p price = some r) :
    (r.buyTargets.map Prod.snd).Pairwise (· < ·)
    ∧ (r.buyTargets.map Prod.fst).Nodup
    ∧ r.buyTargets.length ≤ 3
    ∧ (r.sellTargets.map Prod.snd).Pairwise (· > ·)
    ∧ r.sellTargets.length ≤ 3 := by
  unfold calculate at h
  split at h
  · exact absurd h (by simp)
  · simp only at h
    rcases hfb : findBuySellLevels price (gannSquareOf9 p price) with ⟨ba, sb⟩
    rw [hfb] at h
    cases ba with
    | none => exact absurd h (by simp)
    | some bl =>
      cases sb with
      | none => exact absurd h (by simp)
      | some sl =>
        simp only at h
        rcases htg : getUniqueTargetsFromAngles bl.2 (gannSquareOf9 p price) 3 price
            (some sl.2) with _ | ⟨bt, st⟩
        · rw [htg] at h; exact absurd h (by simp)
        · rw [htg] at h
          simp only at h
          cases h
          unfold getUniqueTargetsFromAngles at htg
          rcases hbr : collectBuyTargets (gannSquareOf9 p price) bl.2 angles []
              with _ | buyRaw
          · rw [hbr] at htg; cases htg
          · rw [hbr] at htg
            simp only at htg
            obtain ⟨hbnd, _, hbsub⟩ :=
              collectBuyTargets_props (gannSquareOf9 p price) bl.2 angles [] buyRaw hbr
            have hbuy1 : ((sortByPriceAsc buyRaw).take 3).map Prod.snd
                |>.Pairwise (· < ·) :=
              pairwise_snd_take _ 3 ((List.pairwise_map.mp
                (sortByPriceAsc_strict buyRaw hbnd)) |> List.pairwise_map.mpr)
            have hbuy2 : (((sortByPriceAsc buyRaw).take 3).map Prod.fst).Nodup := by
              have hraw : (buyRaw.map Prod.fst).Nodup :=
                hbsub.nodup (by decide)
              have hsortfst : ((sortByPriceAsc buyRaw).map Prod.fst).Nodup :=
                (((List.perm_insertionSort priceLe buyRaw).map Prod.fst).nodup_iff).mpr hraw
              rw [List.map_take]
              exact hsortfst.sublist (List.take_sublist 3 _)
            have hbuy3 : ((sortByPriceAsc buyRaw).take 3).length ≤ 3 :=
              List.length_take_le 3 _
            -- the sell list
            by_cases hc : (((floorSqrt price) ^ 2 : ℕ) : ℚ) < sl.2
            · rw [if_pos hc] at htg
              rcases hsr : collectSellTargets (gannSquareOf9 p price) sl.2 angles
                  [(((floorSqrt price) ^ 2 : ℕ) : ℚ)] with _ | ts
              · rw [hsr] at htg; cases htg
              · rw [hsr] at htg
                simp only [Option.map_some'] at htg
                cases htg
                obtain ⟨hnd, hused⟩ := collectSellTargets_props (gannSquareOf9 p price)
                  sl.2 angles _ ts hsr
                have hsnd : ((((0:ℕ), (((floorSqrt price) ^ 2 : ℕ) : ℚ)) :: ts).map
                    Prod.snd).Nodup := by
                  refine List.nodup_cons.mpr ⟨?_, hnd⟩
                  intro hmem
                  exact (hused _ hmem) (List.mem_cons_self _ _)
                exact ⟨hbuy1, hbuy2, hbuy3,
                  pairwise_snd_take _ 3 (sortByPriceDesc_strict _ hsnd),
                  List.length_take_le 3 _⟩
            · rw [if_neg hc] at htg
              rcases hsr : collectSellTargets (gannSquareOf9 p price) sl.2 angles []
                  with _ | ts
              · rw [hsr] at htg; cases htg
              · rw [hsr] at htg
                simp only at htg
                cases htg
                obtain ⟨hnd, _⟩ := collectSellTargets_props (gannSquareOf9 p price)
                  sl.2 angles [] ts hsr
                exact ⟨hbuy1, hbuy2, hbuy3,
                  pairwise_snd_take _ 3 (sortByPriceDesc_strict _ hnd),
                  List.length_take_le 3 _⟩

unseal Rat.mul Rat.add Rat.sub Rat.inv in
/-- C9 witness: on `cfgWL` at price 10 the buy targets are three strictly
increasing prices on three distinct axes and the sell targets are two
strictly decreasing prices. -/
theorem calculate_targets_spec_witness :
    calculate cfgWL 10 = some resWL
    ∧ ((resWL.buyTargets.map Prod.snd).Pairwise (· < ·)
      ∧ (resWL.buyTargets.map Prod.fst).Nodup
      ∧ resWL.buyTargets.length ≤ 3
      ∧ (resWL.sellTargets.map Prod.snd).Pairwise (· > ·)
      ∧ resWL.sellTargets.length ≤ 3) :=
  ⟨by decide, calculate_targets_spec cfgWL 10 resWL (by decide)⟩

end GannAlgomojo
